import Mathlib

/-!
Verification of the ftml text-pipeline core (preprocessor, include resolver,
lexer, parser support structures) against its specification.

The Rust sources are shallowly embedded: strings are `List Char`, byte spans
are `Nat` pairs, fallible functions return `Except`, and code paths that can
panic return a `RustOutcome` with an explicit `panicked` alternative.  Each
definition is translated from the corresponding Rust item (file and item
named in its doc comment); definitions that had to be reconstructed from the
specification because the file is absent from the source tree say so
explicitly.
-/

namespace Ftml

/-- ASCII lowercasing of a single character, as used by Rust's
`eq_ignore_ascii_case` and `UniCase::ascii`. -/
def asciiLowercase (c : Char) : Char :=
  if 'A' ≤ c && c ≤ 'Z' then Char.ofNat (c.toNat + 32) else c

/-- ASCII case-insensitive string equality (`str::eq_ignore_ascii_case`,
also the equality of `UniCase::ascii` keys). -/
def eqIgnoreAsciiCase (a b : List Char) : Bool :=
  a.map asciiLowercase == b.map asciiLowercase

/-- Token kinds, from `parse/token/mod.rs` (`enum Token`). -/
inductive Token where
  | leftBracket
  | leftBracketAnchor
  | leftBracketSpecial
  | rightBracket
  | leftBlock
  | leftBlockEnd
  | leftBlockSpecial
  | rightBlock
  | leftAnchor
  | doubleDash
  | tripleDash
  | clearFloatNeutral
  | clearFloatCenter
  | clearFloatLeft
  | clearFloatRight
  | pipe
  | equals
  | underscore
  | quote
  | heading
  | lineBreak
  | paragraphBreak
  | whitespace
  | bold
  | italics
  | underline
  | superscript
  | subscript
  | leftMonospace
  | rightMonospace
  | color
  | raw
  | leftRaw
  | rightRaw
  | leftLink
  | leftLinkSpecial
  | rightLink
  | tableColumn
  | tableColumnTitle
  | rightAlignOpen
  | rightAlignClose
  | leftAlignOpen
  | leftAlignClose
  | centerAlignOpen
  | centerAlignClose
  | justifyAlignOpen
  | justifyAlignClose
  | identifier
  | email
  | url
  | string
  | leftComment
  | rightComment
  | inputEnd
  | other
deriving DecidableEq, Repr

/-- One lexer output record, from `parse/token/mod.rs`
(`struct ExtractedToken { token, slice, span }`). -/
structure ExtractedToken where
  token : Token
  slice : List Char
  span : Nat × Nat
deriving DecidableEq, Repr

/-- Parse warning kinds.  The defining file (`parsing/warning.rs`) is not
under `src/`; the variant list is modelled from the spec (§3), which matches
every use site present in the sources.  The older sources name this type
`ParseErrorKind`; its two variants are a subset of this list. -/
inductive ParseWarningKind where
  | recursionDepthExceeded
  | noRulesMatch
  | endOfInput
  | ruleFailed
  | blockExpectedLineBreak
  | blockExpectedEnd
  | blockMissingName
  | blockMissingCloseBrackets
  | blockMalformedArguments
  | noSuchModule
  | moduleMissingName
deriving DecidableEq, Repr

/-- A parse warning: `{ token, rule, span, kind }` (spec §3; the older
sources call this `ParseError`, cf. `parse/error.rs`). -/
structure ParseWarning where
  token : Token
  rule : String
  span : Nat × Nat
  kind : ParseWarningKind
deriving DecidableEq, Repr

/-- Parser state, from `parse/parser.rs` (`struct Parser`).  The `log` and
`full_text` fields are omitted: they do not affect the token pointer.  The
`rule` field is kept as the rule name (used when constructing warnings). -/
structure Parser where
  current : ExtractedToken
  remaining : List ExtractedToken
  rule : String

/-- Constructing a warning at the current token
(`Parser::make_error` in `parse/parser.rs`). -/
def Parser.make_error (p : Parser) (kind : ParseWarningKind) : ParseWarning :=
  { token := p.current.token, rule := p.rule, span := p.current.span, kind := kind }

/-- Moving the token pointer forward one step (`Parser::step` in
`parse/parser.rs`).  Rust mutates `self` and returns the new current token;
here the updated parser is returned. -/
def Parser.step (p : Parser) : Except ParseWarning Parser :=
  match p.remaining with
  | current :: remaining => .ok { p with current := current, remaining := remaining }
  | [] => .error (p.make_error .endOfInput)

/-- Parse conditions, from `parse/condition.rs` (`enum ParseCondition`). -/
inductive ParseCondition where
  | currentToken (token : Token)
  | tokenPair (current next : Token)
  | function (f : Parser → Except ParseWarning Bool)

/-- Speculative closure evaluation (`Parser::evaluate_fn` in
`parse/parser.rs`): run the closure on a clone, `Err` counts as `false`. -/
def Parser.evaluate_fn (p : Parser) (f : Parser → Except ParseWarning Bool) : Bool :=
  match f p with
  | .ok b => b
  | .error _ => false

/-- Condition evaluation (`Parser::evaluate` in `parse/parser.rs`).  The
`TokenPair` closure mirrors the source exactly: it checks the current token,
steps, checks the next token, and then returns `Ok(false)` — including on a
full match. -/
def Parser.evaluate (p : Parser) (condition : ParseCondition) : Bool :=
  match condition with
  | .currentToken token => p.current.token == token
  | .function f => p.evaluate_fn f
  | .tokenPair current next =>
      p.evaluate_fn fun parser =>
        if parser.current.token ≠ current then .ok false
        else
          match parser.step with
          | .error e => .error e
          | .ok parser =>
            if parser.current.token ≠ next then .ok false
            else .ok false

/-- Evaluation over a condition list (`Parser::evaluate_any`). -/
def Parser.evaluate_any (p : Parser) (conditions : List ParseCondition) : Bool :=
  conditions.any fun condition => p.evaluate condition

/-!
Block argument maps, from `parse/rule/impls/block/arguments.rs`.

The Rust type is `HashMap<UniCase<&str>, Cow<str>>`.  A hash map holding at
most one entry per ASCII-casing equivalence class is embedded as an
association list; `insert` erases the entry for an equal key before
prepending (`HashMap::insert` overwrites), and `get` removes the found entry
(`HashMap::remove`).  `Arguments.wf` states the hash-map key-uniqueness
invariant, which `new` establishes and `insert` preserves.
-/

/-- Argument map (`struct Arguments` in `arguments.rs`). -/
structure Arguments where
  inner : List (List Char × List Char)
deriving DecidableEq, Repr

/-- Empty map (`Arguments::new`). -/
def Arguments.new : Arguments := ⟨[]⟩

/-- Key insertion (`Arguments::insert`): the key is wrapped in
`UniCase::ascii`, so an existing ASCII-case-equal entry is overwritten. -/
def Arguments.insert (m : Arguments) (key value : List Char) : Arguments :=
  ⟨(key, value) :: m.inner.eraseP (fun kv => eqIgnoreAsciiCase kv.1 key)⟩

/-- Destructive lookup (`Arguments::get`): `self.inner.remove(&key)` both
returns the value and deletes the entry.  The pair returned here is the
removed value together with the map after the call. -/
def Arguments.get (m : Arguments) (key : List Char) : Option (List Char) × Arguments :=
  match m.inner.find? (fun kv => eqIgnoreAsciiCase kv.1 key) with
  | some kv => (some kv.2, ⟨m.inner.eraseP (fun kv => eqIgnoreAsciiCase kv.1 key)⟩)
  | none => (none, m)

/-- Hash-map invariant: no two entries have ASCII-case-equal keys. -/
def Arguments.wf (m : Arguments) : Prop :=
  m.inner.Pairwise fun a b => eqIgnoreAsciiCase a.1 b.1 = false

/-- Rust `char::is_whitespace` restricted to ASCII whitespace (the inputs of
interest are ASCII; used by `str::trim`). -/
def isRustWhitespace (c : Char) : Bool :=
  c == ' ' || c == '\t' || c == '\n' || c == '\r' || c == Char.ofNat 11 || c == Char.ofNat 12

/-- Rust `str::trim`. -/
def strTrim (s : List Char) : List Char :=
  ((s.dropWhile isRustWhitespace).reverse.dropWhile isRustWhitespace).reverse

/-- Boolean argument parsing (`parse_boolean`).  Modelled from the spec: the
defining file (`parse/boolean.rs` of the era using `crate::parse::parse_boolean`)
is not under `src/`; the spec fixes the accepted literals as
`true|false|yes|no|on|off|t|f|y|n|1|0`, ASCII case-insensitive, anything else
failing. -/
def parse_boolean (s : List Char) : Except Unit Bool :=
  let l := s.map asciiLowercase
  if ["true", "yes", "on", "t", "y", "1"].any (fun w => l == w.toList) then .ok true
  else if ["false", "no", "off", "f", "n", "0"].any (fun w => l == w.toList) then .ok false
  else .error ()

/-- From `parse/rule/impls/block/blocks/collapsible.rs`
(`fn parse_hide_location`): trim the value, then scan the fixed name table
ASCII-case-insensitively. -/
def parse_hide_location (s : List Char) : Except ParseWarningKind (Bool × Bool) :=
  let NAMES : List (List Char × (Bool × Bool)) :=
    [("top".toList, (true, false)), ("bottom".toList, (false, true)),
     ("both".toList, (true, true)), ("neither".toList, (false, false)),
     ("none".toList, (false, false))]
  let s := strTrim s
  match NAMES.find? (fun nv => eqIgnoreAsciiCase nv.1 s) with
  | some nv => .ok nv.2
  | none => .error ParseWarningKind.blockMalformedArguments

/-- The attribute fields of `Element::Collapsible` filled in by the
collapsible block rule (body elements are collected separately). -/
structure CollapsibleSettings where
  start_open : Bool
  show_text : Option (List Char)
  hide_text : Option (List Char)
  show_top : Bool
  show_bottom : Bool
  id : Option (List Char)
  class_ : Option (List Char)
  style : Option (List Char)
deriving DecidableEq, Repr

/-- The `start_open` computation of the collapsible rule (`collapsible.rs`
lines 67–82): a `folded` value is parsed as a boolean and inverted
("folded=yes" means "start_open=no"); an unparseable value raises
`BlockMalformedArguments`; an absent argument yields `false`. -/
def collapsible_start_open (folded : Option (List Char)) :
    Except ParseWarningKind Bool :=
  match folded with
  | some value =>
    match parse_boolean value with
    | .ok value => .ok (!value)
    | .error _ => .error ParseWarningKind.blockMalformedArguments
  | none => .ok false

/-- Argument processing of the collapsible block rule, from
`parse/rule/impls/block/blocks/collapsible.rs` (`parse_fn`, the portion
between obtaining the argument map and collecting the body).  The argument
map parameter is the result of `parser.get_argument_map()` (or
`Arguments::new()` when not `in_block`); warnings carry only their kind here
(`parser.make_warn` attaches the current token, which is irrelevant to the
computed attributes). -/
def collapsible_parse_settings (arguments : Arguments) :
    Except ParseWarningKind CollapsibleSettings :=
  let r1 := arguments.get ("id".toList)
  let r2 := r1.2.get ("class".toList)
  let r3 := r2.2.get ("style".toList)
  let r4 := r3.2.get ("show".toList)
  let r5 := r4.2.get ("hide".toList)
  let r6 := r5.2.get ("folded".toList)
  match collapsible_start_open r6.1 with
  | .error w => .error w
  | .ok start_open =>
    let r7 := r6.2.get ("hideLocation".toList)
    match (match r7.1 with
           | some value => parse_hide_location value
           | none => .ok (true, false) : Except ParseWarningKind (Bool × Bool)) with
    | .error w => .error w
    | .ok st =>
      .ok ⟨start_open, r4.1, r5.1, st.1, st.2, r1.1, r2.1, r3.1⟩

/-- Outcome of running a piece of Rust code that may return normally, return
an `Err`, or panic (`assert!` failure, `todo!()`, …). -/
inductive RustOutcome (α : Type) where
  | ok (value : α)
  | err (warning : ParseWarningKind)
  | panicked (message : String)
deriving DecidableEq, Repr

/-- Module variants.  The tree file defining `enum Module` for the era of the
module blocks is not under `src/`; only the `Null` variant (the one produced
by `module CSS`) is modelled, from the spec. -/
inductive Module where
  | null
deriving DecidableEq, Repr

/-- Parse exceptions (`enum ParseException`): an accumulated warning or a
collected CSS style (`ParseException::Style`, used by `module CSS`). -/
inductive ParseException where
  | warning (kind : ParseWarningKind)
  | style (css : List Char)
deriving DecidableEq, Repr

/-- The parse function of the CSS module, from
`parse/rule/impls/block/blocks/module/modules/css.rs` (`parse_fn`).  The
body-collection call `parser.get_body_text(&BLOCK_MODULE)` is abstracted as
a parameter (its `?` propagation is the `err` branch).  The function first
executes `assert!(name.eq_ignore_ascii_case("Categories"), ...)`, which
panics whenever the module name is not "Categories" under any ASCII casing. -/
def module_css_parse_fn (name : List Char)
    (get_body_text : Except ParseWarningKind (List Char)) :
    RustOutcome (Module × List ParseException) :=
  if !eqIgnoreAsciiCase name ("Categories".toList) then
    .panicked "Module doesn't have a valid name"
  else
    match get_body_text with
    | .error w => .err w
    | .ok css => .ok (Module.null, [ParseException.style css])

/-- A module rule record (`struct ModuleRule`): name, accepted names, and
parse function. -/
structure ModuleRule where
  name : String
  accepts_names : List (List Char)
  parse_fn : List Char → Except ParseWarningKind (List Char) →
    RustOutcome (Module × List ParseException)

/-- The CSS module rule (`MODULE_CSS` in `css.rs`): accepts exactly the name
"CSS". -/
def MODULE_CSS : ModuleRule :=
  { name := "module-css", accepts_names := ["CSS".toList], parse_fn := module_css_parse_fn }

/-- Module-rule lookup.  Modelled from the spec: `module/mapping.rs`
(`get_module_rule_with_name`) is not under `src/`; the spec states the module
sub-name is dispatched over the module-rule table by `accepts_names`,
ASCII-case-insensitively.  `MODULE_CSS` is the modelled table's entry for
CSS. -/
def get_module_rule_with_name (name : List Char) : Option ModuleRule :=
  [ MODULE_CSS ].find? fun rule => rule.accepts_names.any fun n => eqIgnoreAsciiCase name n

/-- The module block dispatcher, from
`parse/rule/impls/block/blocks/module/rule.rs` (`parse_fn`): look up the
module rule for the sub-name; absence yields a `NoSuchModule` warning;
otherwise run the module's parse function.  (`get_head_name_map`, which
produces the sub-name and arguments, is parser machinery abstracted here:
the sub-name is the parameter; the CSS module ignores its arguments.) -/
def block_module_parse_fn (subname : List Char)
    (get_body_text : Except ParseWarningKind (List Char)) :
    RustOutcome (Module × List ParseException) :=
  match get_module_rule_with_name subname with
  | none => .err ParseWarningKind.noSuchModule
  | some rule => rule.parse_fn subname get_body_text

/-- Body collection for blocks whose body is parsed "as paragraphs", from
`parse/rule/impls/block/parser.rs` lines 371–400
(`BlockParser::get_body_elements_paragraphs`).  The call to
`gather_paragraphs` (whose defining file is not under `src/`) is abstracted
as a parameter; its `?` propagation is the `err` branch.  After a successful
gather the source immediately executes `todo!()`, which panics with
"not yet implemented". -/
def get_body_elements_paragraphs {Element : Type}
    (gather_paragraphs_result :
      Except ParseWarningKind (List Element × List ParseException)) :
    RustOutcome (List Element) :=
  match gather_paragraphs_result with
  | .error w => .err w
  | .ok _ => .panicked "not yet implemented"

/-- Dispatch between the two body-collection modes
(`BlockParser::get_body_elements`, same file lines 318–338). -/
def get_body_elements {Element : Type} (as_paragraphs : Bool)
    (gather_paragraphs_result :
      Except ParseWarningKind (List Element × List ParseException))
    (no_paragraphs_result : RustOutcome (List Element)) :
    RustOutcome (List Element) :=
  if as_paragraphs then get_body_elements_paragraphs gather_paragraphs_result
  else no_paragraphs_result

/-- A page reference, from `include/object.rs`
(`struct PageRef { site, page }`). -/
structure PageRef where
  site : Option (List Char)
  page : List Char
deriving DecidableEq, Repr

/-- Rust `String::replace_range`: splice `replacement` over the byte range
`start..stop`. -/
def replace_range (text : List Char) (start stop : Nat) (replacement : List Char) :
    List Char :=
  text.take start ++ replacement ++ text.drop stop

/-- The substitution loop of `include()`, from `include/mod.rs` lines 92–118.
The Rust loop runs over `ranges_iter.zip(includes_iter).rev()`; the list
passed here is that reversed zip (`include'` reverses it).  Each iteration
looks the page up in the fetched-pages map, falls back to
`includer.no_such_include(page)` when the fetch returned nothing, pushes the
page onto the result list, and performs `output.replace_range`. -/
def includeLoop (fetched_pages : PageRef → Option (List Char))
    (no_such_include : PageRef → List Char) :
    List ((Nat × Nat) × PageRef) → List Char → List PageRef → List Char × List PageRef
  | [], output, pages => (output, pages)
  | (range, page_ref) :: rest, output, pages =>
    includeLoop fetched_pages no_such_include rest
      (replace_range output range.1 range.2
        (match fetched_pages page_ref with
         | some content => content
         | none => no_such_include page_ref))
      (pages ++ [page_ref])

/-- The include pass, from `include/mod.rs` (`fn include`, lines 42–122;
named `include'` because `include` is a Lean keyword).  The directive scan is
abstracted: `candidates` is the list of (byte range, page ref) pairs for the
successfully parsed `[[include ...]]` directives in source order, exactly as
`INCLUDE_REGEX.find_iter` (which yields matches first to last) and
`parse_include_block` (whose file `include/parse.rs` is not under `src/`)
build `ranges` and `includes`.  The `includer.include_pages` result is the
`fetched_pages` map.  The loop body then iterates the candidates in reverse
(`.rev()`), starting from `output = String::from(input)` and `pages = vec![]`. -/
def include' (input : List Char) (candidates : List ((Nat × Nat) × PageRef))
    (fetched_pages : PageRef → Option (List Char))
    (no_such_include : PageRef → List Char) : List Char × List PageRef :=
  includeLoop fetched_pages no_such_include candidates.reverse input []

/-- Specification-side substitution, following the claim's words: process the
directives earliest first; each directive's range is replaced by the fetched
content, or by `no_such_include(page)` when the page is absent from the
fetched map; the rest of the text (after the range) is processed with the
remaining directives.  `base` is the absolute position of the current text
suffix, so `range.1 - base` is the range's position within it. -/
def substituteSpec (fetched_pages : PageRef → Option (List Char))
    (no_such_include : PageRef → List Char) :
    Nat → List Char → List ((Nat × Nat) × PageRef) → List Char
  | _, input, [] => input
  | base, input, (range, page_ref) :: rest =>
    input.take (range.1 - base) ++
      (match fetched_pages page_ref with
       | some content => content
       | none => no_such_include page_ref) ++
      substituteSpec fetched_pages no_such_include range.2 (input.drop (range.2 - base)) rest

/-- Well-formed candidate ranges: within bounds, properly ordered, pairwise
disjoint (each range starts no earlier than `lo` and no later than the next
one). -/
def rangesOk (lo len : Nat) : List ((Nat × Nat) × PageRef) → Bool
  | [] => true
  | (range, _) :: rest =>
    decide (lo ≤ range.1) && decide (range.1 ≤ range.2) && decide (range.2 ≤ len) &&
      rangesOk range.2 len rest

/-!
The preprocessor, from `preproc/misc.rs` and `preproc/typography.rs`.

Each Rust substitution is a loop: find the leftmost match of a fixed pattern,
splice the replacement over it, repeat until no match remains.  The fixed
regexes are embedded as explicit leftmost-match finders following Rust regex
semantics (leftmost start; greedy/lazy extent as written in the pattern).
The loops are given fuel `length + 1`, which is sufficient for every pattern
used: each replacement strictly decreases the number of remaining matches
(each comment/whitespace/newline replacement shortens the text; each quote
replacement consumes a closing quote; tab replacement consumes a tab).
-/

/-- Whether `pat` occurs in `text` at position `i`. -/
def matchesAt (pat text : List Char) (i : Nat) : Bool :=
  pat.isPrefixOf (text.drop i)

/-- All positions (ascending) at which `pat` occurs in `text`. -/
def occurrences (pat text : List Char) : List Nat :=
  (List.range (text.length + 1)).filter fun i => matchesAt pat text i

/-- The slice `text[s..e]`. -/
def sliceRange (text : List Char) (s e : Nat) : List Char :=
  (text.drop s).take (e - s)

/-- `str_replace` (misc.rs lines 85–99, also typography's `StrReplace`):
`while let Some(idx) = text.find(pattern)` replace that occurrence. -/
def str_replace_fuel (pattern replacement : List Char) :
    Nat → List Char → List Char
  | 0, text => text
  | fuel + 1, text =>
    match (occurrences pattern text).head? with
    | none => text
    | some idx =>
      str_replace_fuel pattern replacement fuel
        (replace_range text idx (idx + pattern.length) replacement)

def str_replace (pattern replacement text : List Char) : List Char :=
  str_replace_fuel pattern replacement (text.length + 1) text

/-- `regex_replace` (misc.rs lines 101–115, also typography's
`RegexReplace`): `while let Some(m) = regex.find(text)` replace the matched
range.  The regex is represented by its leftmost-match finder. -/
def regex_replace_fuel (find : List Char → Option (Nat × Nat))
    (replacement : List Char) : Nat → List Char → List Char
  | 0, text => text
  | fuel + 1, text =>
    match find text with
    | none => text
    | some se =>
      regex_replace_fuel find replacement fuel (replace_range text se.1 se.2 replacement)

def regex_replace (find : List Char → Option (Nat × Nat))
    (replacement text : List Char) : List Char :=
  regex_replace_fuel find replacement (text.length + 1) text

/-- Leftmost match of misc.rs's `COMMENT` regex `\[!--.*--\]` (built with
`dot_matches_new_line`, so `.` matches every character; the `.*` is GREEDY).
Rust-regex semantics: the match starts at the first position where the whole
pattern matches; after the literal `[!--`, the greedy `.*` extends as far as
possible, i.e. to the last `--]` that starts at or after the opener's end.
Returned as the half-open byte range of the whole match. -/
def commentFind (text : List Char) : Option (Nat × Nat) :=
  (occurrences ("[!--".toList) text).findSome? fun s =>
    (((occurrences ("--]".toList) text).filter fun t => s + 4 ≤ t).getLast?).map
      fun t => (s, t + 3)

/-- The NON-greedy comment pattern `\[!--.*?--\]` that the spec describes
(minimal region: the content extends only to the first `--]`).  This is the
specification-side variant, defined for comparison with `commentFind`. -/
def commentFindMinimal (text : List Char) : Option (Nat × Nat) :=
  (occurrences ("[!--".toList) text).findSome? fun s =>
    (((occurrences ("--]".toList) text).filter fun t => s + 4 ≤ t).head?).map
      fun t => (s, t + 3)

/-- End of the whitespace run starting at `p`. -/
def wsRunEnd (text : List Char) (p : Nat) : Nat :=
  p + ((text.drop p).takeWhile isRustWhitespace).length

/-- Leftmost match of misc.rs's `WHITESPACE` regex `^\s+$` with `multi_line`:
a match starts at a line start (`^`), `\s+` greedily takes whitespace
(including newlines), backtracking until `$` holds (end of text or before a
`\n`).  The reported end is thus the largest position in the whitespace run
that sits at a line end. -/
def whitespaceLineFind (text : List Char) : Option (Nat × Nat) :=
  (List.range text.length).findSome? fun p =>
    if p == 0 || text.getD (p - 1) 'x' == '\n' then
      (((List.range' (p + 1) (wsRunEnd text p - p)).filter fun r =>
          r == text.length || text.getD r 'x' == '\n').getLast?).map
        fun r => (p, r)
    else none

/-- Leftmost match of misc.rs's `COMPRESS_NEWLINES` regex `(?:\n\s*){3,}`:
starting at a `\n`, the repetition covers the whole whitespace run from
there, and matches when that run contains at least three newlines. -/
def compressFind (text : List Char) : Option (Nat × Nat) :=
  (List.range text.length).findSome? fun p =>
    if text.getD p 'x' == '\n' then
      if 3 ≤ (sliceRange text p (wsRunEnd text p)).count '\n' then
        some (p, wsRunEnd text p)
      else none
    else none

/-- Match of misc.rs's `LEADING_NEWLINES` regex `^\n+` (anchored at the text
start). -/
def leadingNewlinesFind (text : List Char) : Option (Nat × Nat) :=
  if text.getD 0 'x' == '\n' then
    some (0, (text.takeWhile fun c => c == '\n').length)
  else none

/-- Match of misc.rs's `TRAILING_NEWLINES` regex `\n+$`: the maximal trailing
newline run. -/
def trailingNewlinesFind (text : List Char) : Option (Nat × Nat) :=
  if (text.reverse.takeWhile fun c => c == '\n').length == 0 then none
  else some (text.length - (text.reverse.takeWhile fun c => c == '\n').length, text.length)

/-- The miscellaneous substitutions, from `preproc/misc.rs` (`substitute`,
lines 60–83), applied in source order: strip comments, normalize DOS/Mac
newlines, empty whitespace-only lines, join `\`-continued lines, expand tabs,
compress 3+ newline runs, strip leading and trailing newlines. -/
def misc_substitute (text : List Char) : List Char :=
  let t := regex_replace commentFind [] text
  let t := str_replace ("\r\n".toList) ("\n".toList) t
  let t := str_replace ("\r".toList) ("\n".toList) t
  let t := regex_replace whitespaceLineFind [] t
  let t := str_replace ("\\\n".toList) [] t
  let t := str_replace ("\t".toList) ("    ".toList) t
  let t := regex_replace compressFind ("\n\n".toList) t
  let t := regex_replace leadingNewlinesFind [] t
  regex_replace trailingNewlinesFind [] t

/-- Leftmost match of a typography `RegexSurround` pattern
`open (.*?) close` (no `dot_matches_new_line`, so the lazy content group may
not contain a newline): from the first opener position, the content extends
to the nearest closer not separated by a newline.  Returns the whole match
range and the content group range. -/
def surroundFind (op cl text : List Char) : Option ((Nat × Nat) × (Nat × Nat)) :=
  (occurrences op text).findSome? fun s =>
    (((occurrences cl text).filter fun t =>
        s + op.length ≤ t &&
          (sliceRange text (s + op.length) t).all fun c => !(c == '\n')).head?).map
      fun t => ((s, t + cl.length), (s + op.length, t))

/-- The `RegexSurround` replacement loop (typography.rs lines 137–171):
replace the whole match by `begin_ ++ content ++ end_`. -/
def regex_surround_fuel (op cl begin_ end_ : List Char) :
    Nat → List Char → List Char
  | 0, text => text
  | fuel + 1, text =>
    match surroundFind op cl text with
    | none => text
    | some m =>
      regex_surround_fuel op cl begin_ end_ fuel
        (replace_range text m.1.1 m.1.2 (begin_ ++ sliceRange text m.2.1 m.2.2 ++ end_))

def regex_surround (op cl begin_ end_ text : List Char) : List Char :=
  regex_surround_fuel op cl begin_ end_ (text.length + 1) text

/-- Leftmost match of typography's `ELLIPSIS` regex `(?:\.\.\.|\. \. \.)`
(alternatives tried left to right at each position). -/
def ellipsisFind (text : List Char) : Option (Nat × Nat) :=
  (List.range text.length).findSome? fun p =>
    if matchesAt ("...".toList) text p then some (p, p + 3)
    else if matchesAt (". . .".toList) text p then some (p, p + 5)
    else none

/-- The typographic substitutions, from `preproc/typography.rs`
(`substitute`, lines 176–198), in source order: double quotes, low double
quotes, single quotes, French angle quotes, ellipsis. -/
def typography_substitute (text : List Char) : List Char :=
  let t := regex_surround ("``".toList) ("''".toList)
    [Char.ofNat 0x201c] [Char.ofNat 0x201d] text
  let t := regex_surround (",,".toList) ("''".toList)
    [Char.ofNat 0x201e] [Char.ofNat 0x201d] t
  let t := regex_surround ("`".toList) ("'".toList)
    [Char.ofNat 0x2018] [Char.ofNat 0x2019] t
  let t := str_replace ("<<".toList) [Char.ofNat 0xab] t
  let t := str_replace (">>".toList) [Char.ofNat 0xbb] t
  regex_replace ellipsisFind [Char.ofNat 0x2026] t

/-- The full preprocessor.  The composition is modelled from the spec (the
`preproc/mod.rs` tying the two passes together is not under `src/`): the
miscellaneous substitutions run first, then the typographic sub-pass — the
spec and misc.rs's own header note that typography must run after comment
removal. -/
def preprocess (text : List Char) : List Char :=
  typography_substitute (misc_substitute text)

/-- A pest token pair.  Modelled from the spec where the grammar is
concerned: the grammar file `parse/lexer.pest` is not under `src/`, so a
pair is represented by the `Token` its grammar rule maps to under
`Token::get_from_rule` (`parse/token/mod.rs` lines 190–267), together with
its slice (`pair.as_str()`) and span (`pair.as_span()`). -/
structure PestPair where
  token : Token
  slice : List Char
  start : Nat
  stop : Nat
deriving DecidableEq, Repr

/-- Result of `TokenLexer::parse(Rule::document, text)`: the pest pairs, or a
lexer-internal error. -/
inductive LexResult where
  | ok (pairs : List PestPair)
  | err
deriving DecidableEq, Repr

/-- `Token::convert_pair` from `parse/token/mod.rs` lines 167–187: extract
the rule's token, slice and span into an `ExtractedToken`. -/
def convert_pair (pair : PestPair) : ExtractedToken :=
  { token := pair.token, slice := pair.slice, span := (pair.start, pair.stop) }

/-- `Token::extract_all` from `parse/token/mod.rs` lines 139–164: on a
successful pest parse, convert every pair in order; on a lexer-internal
error, return the entire input as one `Other` token covering `0..len` (and
nothing else). -/
def extract_all (text : List Char) : LexResult → List ExtractedToken
  | .ok pairs => pairs.map convert_pair
  | .err => [{ token := Token.other, slice := text, span := (0, text.length) }]

/-!
Helper lemmas (shared by the claim theorems below).
-/

theorem eqIgnoreAsciiCase_iff (a b : List Char) :
    eqIgnoreAsciiCase a b = true ↔ a.map asciiLowercase = b.map asciiLowercase := by
  simp [eqIgnoreAsciiCase]

theorem eqIgnoreAsciiCase_congr_right {key key' : List Char}
    (h : eqIgnoreAsciiCase key key' = true) (x : List Char) :
    eqIgnoreAsciiCase x key = eqIgnoreAsciiCase x key' := by
  rw [eqIgnoreAsciiCase_iff] at h
  simp [eqIgnoreAsciiCase, h]

theorem eqIgnoreAsciiCase_trans {a b c : List Char}
    (h1 : eqIgnoreAsciiCase a b = true) (h2 : eqIgnoreAsciiCase b c = true) :
    eqIgnoreAsciiCase a c = true := by
  rw [eqIgnoreAsciiCase_iff] at h1 h2 ⊢
  exact h1.trans h2

theorem eqIgnoreAsciiCase_comm (a b : List Char) :
    eqIgnoreAsciiCase a b = eqIgnoreAsciiCase b a := by
  rw [Bool.eq_iff_iff, eqIgnoreAsciiCase_iff, eqIgnoreAsciiCase_iff]
  exact eq_comm

/-- Helper: erasing the (unique, by pairwise distinctness) match of a
predicate leaves a list in which `find?` for that predicate fails. -/
theorem find?_eraseP_of_pairwise {α : Type} (p : α → Bool) :
    ∀ (l : List α), l.Pairwise (fun a b => p a = true → p b = false) →
      (l.eraseP p).find? p = none := by
  intro l
  induction l with
  | nil => intro _; rfl
  | cons x xs ih =>
    intro hp
    rw [List.pairwise_cons] at hp
    by_cases hx : p x = true
    · rw [List.eraseP_cons_of_pos hx]
      apply List.find?_eq_none.mpr
      intro b hb
      simp [hp.1 b hb hx]
    · rw [List.eraseP_cons_of_neg (by simpa using hx),
        List.find?_cons_of_neg _ (by simpa using hx)]
      exact ih hp.2

theorem eqIgnoreAsciiCase_length {a b : List Char}
    (h : eqIgnoreAsciiCase a b = true) : a.length = b.length := by
  rw [eqIgnoreAsciiCase_iff] at h
  have := congrArg List.length h
  simpa using this

/-- Helper: erasing matches of a predicate disjoint from `p` does not change
the result of `find? p`. -/
theorem find?_eraseP_disjoint {α : Type} (p q : α → Bool)
    (hdis : ∀ x, q x = true → p x = false) :
    ∀ l : List α, (l.eraseP q).find? p = l.find? p := by
  intro l
  induction l with
  | nil => rfl
  | cons x xs ih =>
    by_cases hq : q x = true
    · rw [List.eraseP_cons_of_pos hq, List.find?_cons_of_neg _ (by simp [hdis x hq])]
    · rw [List.eraseP_cons_of_neg (by simpa using hq)]
      by_cases hp : p x = true
      · rw [List.find?_cons_of_pos _ hp, List.find?_cons_of_pos _ hp]
      · rw [List.find?_cons_of_neg _ (by simpa using hp),
          List.find?_cons_of_neg _ (by simpa using hp)]
        exact ih

/-- Helper: a destructive `get` for one key does not disturb the lookup of a
key of a different length (ASCII-case-equal keys have equal length). -/
theorem Arguments.get_after_get_ne (m : Arguments) (k k' : List Char)
    (h : k.length ≠ k'.length) :
    (((m.get k).2).get k').1 = (m.get k').1 := by
  have hdis : ∀ kv : List Char × List Char,
      eqIgnoreAsciiCase kv.1 k = true → eqIgnoreAsciiCase kv.1 k' = false := by
    intro kv hkv
    by_contra hc
    rw [Bool.not_eq_false] at hc
    exact h ((eqIgnoreAsciiCase_length hkv).symm.trans (eqIgnoreAsciiCase_length hc))
  unfold Arguments.get
  rcases hf : m.inner.find? (fun kv => eqIgnoreAsciiCase kv.1 k) with _ | kv <;>
    simp only [hf]
  rw [find?_eraseP_disjoint (fun kv => eqIgnoreAsciiCase kv.1 k')
    (fun kv => eqIgnoreAsciiCase kv.1 k) hdis m.inner]
  rcases hf' : m.inner.find? (fun kv => eqIgnoreAsciiCase kv.1 k') with _ | kv' <;>
    simp only [hf']

end Ftml

/-- C10: `Arguments::get` is destructive.  For every well-formed argument map
(the hash-map invariant: no two entries with ASCII-case-equal keys), if
`get(key)` returns `Some(value)` together with the updated map, then a second
`get` on that map with the same key under any ASCII casing returns `None`:
the first call removed the entry. -/
theorem Ftml.arguments_get_removes_entry
    (m : Ftml.Arguments) (key key' v : List Char) (m' : Ftml.Arguments)
    (hwf : m.wf) (hcase : Ftml.eqIgnoreAsciiCase key key' = true)
    (hget : m.get key = (some v, m')) :
    (m'.get key').1 = none := by
  unfold Ftml.Arguments.get at hget ⊢
  rcases hfind : m.inner.find? (fun kv => Ftml.eqIgnoreAsciiCase kv.1 key) with _ | kv
  · rw [hfind] at hget
    cases hget
  · rw [hfind] at hget
    have hm' : m' = ⟨m.inner.eraseP (fun kv => Ftml.eqIgnoreAsciiCase kv.1 key)⟩ :=
      (congrArg Prod.snd hget).symm
    subst hm'
    have hkeys : (fun kv : List Char × List Char => Ftml.eqIgnoreAsciiCase kv.1 key') =
        (fun kv : List Char × List Char => Ftml.eqIgnoreAsciiCase kv.1 key) := by
      funext kv
      exact (Ftml.eqIgnoreAsciiCase_congr_right hcase kv.1).symm
    have hpair : m.inner.Pairwise
        (fun a b => (fun kv : List Char × List Char => Ftml.eqIgnoreAsciiCase kv.1 key) a = true →
          (fun kv : List Char × List Char => Ftml.eqIgnoreAsciiCase kv.1 key) b = false) := by
      refine hwf.imp_of_mem ?_
      intro a b _ _ hab ha
      by_contra hb
      rw [Bool.not_eq_false] at hb
      have : Ftml.eqIgnoreAsciiCase a.1 b.1 = true :=
        Ftml.eqIgnoreAsciiCase_trans ha (by rw [Ftml.eqIgnoreAsciiCase_comm]; exact hb)
      rw [hab] at this
      cases this
    simp only [hkeys]
    rw [Ftml.find?_eraseP_of_pairwise _ _ hpair]

/-- Witness for C10 at a concrete map: inserting under key "Folded", a first
`get("folded")` returns the value, and re-getting "FOLDED" from the returned
map yields `None`. -/
theorem Ftml.arguments_get_removes_entry_witness :
    ((Ftml.Arguments.new.insert ("Folded".toList) ("yes".toList)).get ("folded".toList)).1 =
      some ("yes".toList)
    ∧ (((Ftml.Arguments.new.insert ("Folded".toList) ("yes".toList)).get
        ("folded".toList)).2.get ("FOLDED".toList)).1 = none := by
  refine ⟨by decide, ?_⟩
  exact Ftml.arguments_get_removes_entry
    (Ftml.Arguments.new.insert ("Folded".toList) ("yes".toList))
    ("folded".toList) ("FOLDED".toList) ("yes".toList)
    ((Ftml.Arguments.new.insert ("Folded".toList) ("yes".toList)).get ("folded".toList)).2
    (by unfold Ftml.Arguments.wf Ftml.Arguments.insert Ftml.Arguments.new; simp)
    (by decide) (by decide)

/-- C6 counterexample: for a collapsible block with no arguments at all (the
`folded` argument absent), the parsed settings have `start_open = false`, not
`start_open = true` as the claim's "otherwise" case states. -/
theorem Ftml.collapsible_folded_default_counterexample :
    Ftml.collapsible_parse_settings Ftml.Arguments.new =
      Except.ok ⟨false, none, none, true, false, none, none, none⟩
    ∧ false ≠ true :=
  ⟨rfl, by decide⟩

/-- C6 (amended): for every collapsible argument map, if `folded` parses to
true then `start_open = false`; if `folded` parses to false then
`start_open = true`; if `folded` is absent then `start_open = false` (the
block starts closed); and an unparseable `folded` value yields a
`BlockMalformedArguments` warning. -/
theorem Ftml.collapsible_folded_spec :
    (∀ (m : Ftml.Arguments) (r : Ftml.CollapsibleSettings),
        Ftml.collapsible_parse_settings m = .ok r →
        ((m.get ("folded".toList)).1 = none → r.start_open = false)
        ∧ (∀ v b, (m.get ("folded".toList)).1 = some v →
            Ftml.parse_boolean v = .ok b → r.start_open = !b))
    ∧ (∀ (m : Ftml.Arguments) (v : List Char),
        (m.get ("folded".toList)).1 = some v →
        Ftml.parse_boolean v = .error () →
        Ftml.collapsible_parse_settings m =
          .error Ftml.ParseWarningKind.blockMalformedArguments) := by
  have hchain : ∀ m : Ftml.Arguments,
      ((((((m.get ("id".toList)).2.get ("class".toList)).2.get
        ("style".toList)).2.get ("show".toList)).2.get
        ("hide".toList)).2.get ("folded".toList)).1 = (m.get ("folded".toList)).1 := by
    intro m
    rw [Ftml.Arguments.get_after_get_ne _ ("hide".toList) ("folded".toList) (by decide),
      Ftml.Arguments.get_after_get_ne _ ("show".toList) ("folded".toList) (by decide),
      Ftml.Arguments.get_after_get_ne _ ("style".toList) ("folded".toList) (by decide),
      Ftml.Arguments.get_after_get_ne _ ("class".toList) ("folded".toList) (by decide),
      Ftml.Arguments.get_after_get_ne _ ("id".toList) ("folded".toList) (by decide)]
  constructor
  · intro m r h
    simp only [Ftml.collapsible_parse_settings] at h
    rw [hchain m] at h
    constructor
    · intro hnone
      rw [hnone] at h
      simp only [Ftml.collapsible_start_open] at h
      split at h
      · exact absurd h (by simp)
      · cases h
        rfl
    · intro v b hv hb
      rw [hv] at h
      simp only [Ftml.collapsible_start_open, hb] at h
      split at h
      · exact absurd h (by simp)
      · cases h
        rfl
  · intro m v hv hb
    simp only [Ftml.collapsible_parse_settings]
    rw [hchain m, hv]
    simp [Ftml.collapsible_start_open, hb]

/-- Witness for C6 at a concrete map: `folded="maybe"` is unparseable and
produces the `BlockMalformedArguments` warning. -/
theorem Ftml.collapsible_folded_spec_witness :
    Ftml.collapsible_parse_settings
        (Ftml.Arguments.new.insert ("folded".toList) ("maybe".toList)) =
      .error Ftml.ParseWarningKind.blockMalformedArguments :=
  Ftml.collapsible_folded_spec.2
    (Ftml.Arguments.new.insert ("folded".toList) ("maybe".toList))
    ("maybe".toList) (by decide) rfl

/-- C7: the `[[module CSS]]` rule panics.  Its parse function asserts
`name.eq_ignore_ascii_case("Categories")`, but the dispatcher only reaches it
for the accepted name "CSS", so the assertion fails and the code panics
instead of collecting the body into the styles list — for every body
outcome. -/
theorem Ftml.module_css_assert_panics
    (get_body_text : Except Ftml.ParseWarningKind (List Char)) :
    Ftml.block_module_parse_fn ("CSS".toList) get_body_text =
      .panicked "Module doesn't have a valid name" := rfl

/-- C1: whenever a block body is collected "as paragraphs" and the paragraph
gathering succeeds, `BlockParser::get_body_elements_paragraphs` reaches the
`todo!()` at parser.rs:399 and panics with "not yet implemented" — the parse
therefore does not return a tree for such inputs. -/
theorem Ftml.get_body_elements_paragraphs_todo (Element : Type)
    (elements : List Element) (exceptions : List Ftml.ParseException)
    (no_paragraphs_result : Ftml.RustOutcome (List Element)) :
    Ftml.get_body_elements true (Except.ok (elements, exceptions)) no_paragraphs_result =
      .panicked "not yet implemented" := rfl

namespace Ftml

theorem includeLoop_append (f : PageRef → Option (List Char)) (n : PageRef → List Char) :
    ∀ (xs ys : List ((Nat × Nat) × PageRef)) (out : List Char) (pages : List PageRef),
      includeLoop f n (xs ++ ys) out pages =
        includeLoop f n ys (includeLoop f n xs out pages).1
          (includeLoop f n xs out pages).2 := by
  intro xs
  induction xs with
  | nil => intro ys out pages; rfl
  | cons c xs ih =>
    intro ys out pages
    obtain ⟨range, page_ref⟩ := c
    simp only [List.cons_append, includeLoop]
    exact ih ys _ _

theorem include_cons (input : List Char) (c : (Nat × Nat) × PageRef)
    (rest : List ((Nat × Nat) × PageRef)) (f : PageRef → Option (List Char))
    (n : PageRef → List Char) :
    include' input (c :: rest) f n =
      (replace_range (include' input rest f n).1 c.1.1 c.1.2
        (match f c.2 with | some content => content | none => n c.2),
       (include' input rest f n).2 ++ [c.2]) := by
  obtain ⟨range, page_ref⟩ := c
  unfold include'
  rw [List.reverse_cons, includeLoop_append]
  rfl

theorem includeLoop_pages (f : PageRef → Option (List Char)) (n : PageRef → List Char) :
    ∀ (cs : List ((Nat × Nat) × PageRef)) (out : List Char) (pages : List PageRef),
      (includeLoop f n cs out pages).2 = pages ++ cs.map (fun c => c.2) := by
  intro cs
  induction cs with
  | nil => intro out pages; simp [includeLoop]
  | cons c rest ih =>
    intro out pages
    obtain ⟨range, page_ref⟩ := c
    simp only [includeLoop, List.map_cons]
    rw [ih]
    simp

theorem rangesOk_le {lo lo' len : Nat} (h : lo' ≤ lo) :
    ∀ cs, rangesOk lo len cs = true → rangesOk lo' len cs = true := by
  intro cs
  cases cs with
  | nil => intro; rfl
  | cons c rest =>
    obtain ⟨⟨s, e⟩, p⟩ := c
    simp only [rangesOk, Bool.and_eq_true, decide_eq_true_eq]
    rintro ⟨⟨⟨h1, h2⟩, h3⟩, h4⟩
    exact ⟨⟨⟨le_trans h h1, h2⟩, h3⟩, h4⟩

theorem substituteSpec_take (f : PageRef → Option (List Char)) (n : PageRef → List Char)
    {m e : Nat} (input : List Char) (cs : List ((Nat × Nat) × PageRef))
    (hok : rangesOk e input.length cs = true) (hm : m ≤ e) :
    (substituteSpec f n 0 input cs).take m = input.take m := by
  cases cs with
  | nil => rfl
  | cons c rest =>
    obtain ⟨⟨s2, e2⟩, p2⟩ := c
    simp only [rangesOk, Bool.and_eq_true, decide_eq_true_eq] at hok
    obtain ⟨⟨⟨h1, h2⟩, h3⟩, _⟩ := hok
    have hms2 : m ≤ s2 := le_trans hm h1
    have hs2len : s2 ≤ input.length := le_trans h2 h3
    simp only [substituteSpec, Nat.sub_zero]
    rw [List.append_assoc, List.take_append_eq_append_take]
    have hlen : (input.take s2).length = s2 := by
      rw [List.length_take]
      exact Nat.min_eq_left hs2len
    rw [hlen, Nat.sub_eq_zero_of_le hms2]
    simp [List.take_take, Nat.min_eq_left hms2]

theorem substituteSpec_drop (f : PageRef → Option (List Char)) (n : PageRef → List Char)
    (cs : List ((Nat × Nat) × PageRef)) (b e : Nat) (input : List Char)
    (hbe : b ≤ e) (hok : rangesOk e input.length cs = true) :
    (substituteSpec f n b input cs).drop (e - b) =
      substituteSpec f n e (input.drop (e - b)) cs := by
  cases cs with
  | nil => rfl
  | cons c rest =>
    obtain ⟨⟨s2, e2⟩, p2⟩ := c
    simp only [rangesOk, Bool.and_eq_true, decide_eq_true_eq] at hok
    obtain ⟨⟨⟨h1, h2⟩, h3⟩, _⟩ := hok
    have hs2len : s2 ≤ input.length := le_trans h2 h3
    simp only [substituteSpec]
    rw [List.append_assoc, List.drop_append_eq_append_drop]
    have hlen : (input.take (s2 - b)).length = s2 - b := by
      rw [List.length_take]
      exact Nat.min_eq_left (le_trans (Nat.sub_le _ _) hs2len)
    have heb : e - b ≤ s2 - b := Nat.sub_le_sub_right h1 b
    rw [hlen, Nat.sub_eq_zero_of_le heb, List.drop_zero, List.drop_take]
    have harith1 : s2 - b - (e - b) = s2 - e := by omega
    rw [harith1, List.drop_drop]
    have harith2 : e - b + (e2 - e) = e2 - b := by omega
    rw [harith2, List.append_assoc]

theorem include_eq_substituteSpec (f : PageRef → Option (List Char))
    (n : PageRef → List Char) :
    ∀ (cs : List ((Nat × Nat) × PageRef)) (input : List Char),
      rangesOk 0 input.length cs = true →
      (include' input cs f n).1 = substituteSpec f n 0 input cs := by
  intro cs
  induction cs with
  | nil => intro input _; rfl
  | cons c rest ih =>
    intro input h
    obtain ⟨⟨s, e⟩, p⟩ := c
    simp only [rangesOk, Bool.and_eq_true, decide_eq_true_eq] at h
    obtain ⟨⟨⟨_, hse⟩, helen⟩, hrest⟩ := h
    rw [include_cons]
    simp only []
    rw [ih input (rangesOk_le (Nat.zero_le e) rest hrest)]
    unfold replace_range
    rw [substituteSpec_take f n input rest hrest hse]
    have hdrop := substituteSpec_drop f n rest 0 e input (Nat.zero_le e) hrest
    simp only [Nat.sub_zero] at hdrop
    rw [hdrop]
    simp only [substituteSpec, Nat.sub_zero, List.append_assoc]

end Ftml

/-- C2 counterexample: a source with two valid include directives, the one
for page "alpha" appearing before the one for page "beta".  The returned
page-ref list is [beta, alpha] — the reverse of the order in which the
includes appeared in the source, not the source order the claim states. -/
theorem Ftml.include_pages_order_counterexample :
    (Ftml.include' ("XY".toList)
        [((0, 1), ⟨none, "alpha".toList⟩), ((1, 2), ⟨none, "beta".toList⟩)]
        (fun _ => none) (fun _ => [])).2 =
      [⟨none, "beta".toList⟩, ⟨none, "alpha".toList⟩]
    ∧ ([(⟨none, "beta".toList⟩ : Ftml.PageRef), ⟨none, "alpha".toList⟩] ≠
        [⟨none, "alpha".toList⟩, ⟨none, "beta".toList⟩]) :=
  ⟨rfl, by decide⟩

/-- C2 (amended): for every source text and candidate list, the `[PageRef]`
list returned by `include()` is the REVERSE of the order in which the valid
include directives appeared in the source: the loop iterates the ranges in
reverse for the substitution and pushes each page ref as it goes, and the
list is returned without re-reversal. -/
theorem Ftml.include_pages_reverse_order (input : List Char)
    (candidates : List ((Nat × Nat) × Ftml.PageRef))
    (f : Ftml.PageRef → Option (List Char)) (n : Ftml.PageRef → List Char) :
    (Ftml.include' input candidates f n).2 =
      (candidates.map (fun c => c.2)).reverse := by
  unfold Ftml.include'
  rw [Ftml.includeLoop_pages]
  simp [List.map_reverse]

/-- C3: the substituted output of `include()`.  For well-formed candidate
ranges (in bounds, ordered, disjoint), the output produced by replacing the
ranges from last to first equals the specification-side splice in which every
directive's range is replaced by the fetched content — or by
`includer.no_such_include(page)` exactly when the page is absent from the
fetched map — processed earliest first.  Replacing from last to first is what
keeps the earlier (lower) indices valid, which this equality expresses. -/
theorem Ftml.include_substitution_spec (input : List Char)
    (candidates : List ((Nat × Nat) × Ftml.PageRef))
    (fetched_pages : Ftml.PageRef → Option (List Char))
    (no_such_include : Ftml.PageRef → List Char)
    (hok : Ftml.rangesOk 0 input.length candidates = true) :
    (Ftml.include' input candidates fetched_pages no_such_include).1 =
      Ftml.substituteSpec fetched_pages no_such_include 0 input candidates :=
  Ftml.include_eq_substituteSpec fetched_pages no_such_include candidates input hok

/-- Witness for C3 at a concrete input: two directives over "abcdef"; the
page "alpha" is fetched as "XX", the page "beta" is absent and replaced by
the no-such-include placeholder "!". -/
theorem Ftml.include_substitution_spec_witness :
    (Ftml.include' ("abcdef".toList)
        [((1, 2), ⟨none, "alpha".toList⟩), ((3, 5), ⟨none, "beta".toList⟩)]
        (fun r => if r.page = "alpha".toList then some ("XX".toList) else none)
        (fun _ => "!".toList)).1 =
      Ftml.substituteSpec
        (fun r => if r.page = "alpha".toList then some ("XX".toList) else none)
        (fun _ => "!".toList) 0 ("abcdef".toList)
        [((1, 2), ⟨none, "alpha".toList⟩), ((3, 5), ⟨none, "beta".toList⟩)] :=
  Ftml.include_substitution_spec ("abcdef".toList)
    [((1, 2), ⟨none, "alpha".toList⟩), ((3, 5), ⟨none, "beta".toList⟩)]
    (fun r => if r.page = "alpha".toList then some ("XX".toList) else none)
    (fun _ => "!".toList) (by decide)

/-- C4 counterexample: on an input with two separate comments and ordinary
text between them, the comment-stripping step (whose regex `\[!--.*--\]` is
greedy) removes everything from the first `[!--` to the last `--]`, yielding
"ac" — whereas the non-greedy (minimal-region) stripping described by the
claim would preserve the between-text and yield "abc". -/
theorem Ftml.comment_strip_not_minimal_counterexample :
    Ftml.regex_replace Ftml.commentFind [] ("a[!--x--]b[!--y--]c".toList) = "ac".toList
    ∧ Ftml.regex_replace Ftml.commentFindMinimal [] ("a[!--x--]b[!--y--]c".toList) =
        "abc".toList
    ∧ "ac".toList ≠ "abc".toList := by
  refine ⟨by decide, by decide, by decide⟩

/-- C4 (amended): the comment-stripping step removes the GREEDY match of
`[!-- ... --]` with dot matching newline: whenever the leftmost greedy match
spans `s..e` (from the first `[!--` to the last following `--]`) and the
remainder contains no further match, the step's output is the text with
`s..e` deleted — so the text between two separate comments is removed along
with them. -/
theorem Ftml.comment_strip_greedy (t : List Char) (s e : Nat)
    (h1 : Ftml.commentFind t = some (s, e))
    (h2 : Ftml.commentFind (t.take s ++ t.drop e) = none) :
    Ftml.regex_replace Ftml.commentFind [] t = t.take s ++ t.drop e := by
  cases t with
  | nil =>
    rw [show Ftml.commentFind ([] : List Char) = none from rfl] at h1
    cases h1
  | cons c cs =>
    simp only [Ftml.regex_replace, List.length_cons]
    rw [Ftml.regex_replace_fuel, h1]
    simp only []
    have ht' : Ftml.replace_range (c :: cs) s e [] =
        (c :: cs).take s ++ (c :: cs).drop e := by
      simp [Ftml.replace_range]
    rw [ht', Ftml.regex_replace_fuel, h2]

/-- Witness for C4 at the two-comment input: the greedy match spans 1..18,
and stripping yields take 1 ++ drop 18 (that is, "ac"). -/
theorem Ftml.comment_strip_greedy_witness :
    Ftml.regex_replace Ftml.commentFind [] ("a[!--x--]b[!--y--]c".toList) =
      ("a[!--x--]b[!--y--]c".toList).take 1 ++ ("a[!--x--]b[!--y--]c".toList).drop 18 :=
  Ftml.comment_strip_greedy ("a[!--x--]b[!--y--]c".toList) 1 18 (by decide) (by decide)

/-- C5 counterexample: preprocessing is not idempotent.  In
"a[!-\\\n-b--]c" the line-continuation join (which runs after comment
stripping) splices the pieces into a new comment "a[!--b--]c"; only a second
preprocessor pass strips it (yielding "ac"), so
`preprocess(preprocess(s)) ≠ preprocess(s)`. -/
theorem Ftml.preprocess_not_idempotent_counterexample :
    Ftml.preprocess (Ftml.preprocess ("a[!-\\\n-b--]c".toList)) ≠
      Ftml.preprocess ("a[!-\\\n-b--]c".toList) := by decide

/-- C5 (amended): each substitution loop already runs to a fixpoint of its
own pattern, but a later step can create a match for an earlier one, so full
preprocessing is not idempotent in general (see the counterexample).
Idempotence holds exactly on the inputs whose preprocessed form is left
unchanged by both sub-passes: if the miscellaneous pass and the typographic
pass each fix `preprocess s`, then `preprocess (preprocess s) = preprocess s`. -/
theorem Ftml.preprocess_idempotent_on_stable (s : List Char)
    (h1 : Ftml.misc_substitute (Ftml.preprocess s) = Ftml.preprocess s)
    (h2 : Ftml.typography_substitute (Ftml.preprocess s) = Ftml.preprocess s) :
    Ftml.preprocess (Ftml.preprocess s) = Ftml.preprocess s := by
  show Ftml.typography_substitute (Ftml.misc_substitute (Ftml.preprocess s)) =
    Ftml.preprocess s
  rw [h1, h2]

/-- Witness for C5 at "abc": both passes fix the preprocessed text, and
preprocessing is idempotent there. -/
theorem Ftml.preprocess_idempotent_on_stable_witness :
    Ftml.preprocess (Ftml.preprocess ("abc".toList)) = Ftml.preprocess ("abc".toList) :=
  Ftml.preprocess_idempotent_on_stable ("abc".toList) (by decide) (by decide)

/-- Sanity check of the embedding against the repository's own
`preproc/misc.rs` test vector (tabs and trailing newline). -/
theorem Ftml.misc_substitute_matches_repo_test_tabs :
    Ftml.misc_substitute ("\tapple\n\tbanana\tcherry\n".toList) =
      "    apple\n    banana    cherry".toList := by decide

/-- Sanity check against the repository's misc.rs test vector for
whitespace-only lines. -/
theorem Ftml.misc_substitute_matches_repo_test_whitespace :
    Ftml.misc_substitute ("<\n        \n      \n  \n      \n>".toList) =
      "<\n\n>".toList := by decide

/-- Sanity check against the repository's misc.rs test vector for DOS/Mac
newlines. -/
theorem Ftml.misc_substitute_matches_repo_test_newlines :
    Ftml.misc_substitute ("newlines:\r\n* apple\r* banana\r\ncherry\n\r* durian".toList) =
      "newlines:\n* apple\n* banana\ncherry\n\n* durian".toList := by decide

/-- Sanity check of the typography embedding against the repository's
`preproc/typography.rs` test vector for French angle quotes. -/
theorem Ftml.typography_substitute_matches_repo_test_angle :
    Ftml.typography_substitute ("<< [[[SCP-4338]]] | SCP-4339 | [[[SCP-4340]]] >>".toList) =
      (String.mk ([Char.ofNat 0xab] ++ " [[[SCP-4338]]] | SCP-4339 | [[[SCP-4340]]] ".toList
        ++ [Char.ofNat 0xbb])).toList := by decide

/-- Sanity check of the typography embedding against the repository's
spaced-ellipsis test vector. -/
theorem Ftml.typography_substitute_matches_repo_test_ellipsis :
    Ftml.typography_substitute ("**ENTITY MAKES DRAMATIC MOTION** . . . ".toList) =
      ("**ENTITY MAKES DRAMATIC MOTION** ".toList ++ [Char.ofNat 0x2026] ++ " ".toList) := by
  decide

/-- C8 counterexample: on the lexer's internal-failure path, the output is
exactly one `Other` token covering the whole input, with no `InputEnd`
terminator — so the last token is `Other`, not `InputEnd` as the claim states
for all outputs. -/
theorem Ftml.extract_all_err_counterexample :
    Ftml.extract_all ("a".toList) .err =
      [{ token := Ftml.Token.other, slice := "a".toList, span := (0, 1) }]
    ∧ Ftml.Token.other ≠ Ftml.Token.inputEnd :=
  ⟨rfl, by decide⟩

/-- C8 (amended): the token list produced by `Token::extract_all` is always
non-empty.  On the success path — where pest ends the pair sequence with an
`EOI` pair whose slice is empty and whose span is `len..len` — the last
token is `InputEnd` with empty slice and span `len..len`.  On the
internal-failure path the output is instead the single `Other` token covering
`0..len`, without an `InputEnd` terminator. -/
theorem Ftml.extract_all_terminator (text : List Char) :
    (∀ pairs : List Ftml.PestPair,
        pairs.getLast? =
          some { token := Ftml.Token.inputEnd, slice := [],
                 start := text.length, stop := text.length } →
        (Ftml.extract_all text (.ok pairs)).getLast? =
          some { token := Ftml.Token.inputEnd, slice := [],
                 span := (text.length, text.length) }
        ∧ Ftml.extract_all text (.ok pairs) ≠ [])
    ∧ (Ftml.extract_all text .err =
        [{ token := Ftml.Token.other, slice := text, span := (0, text.length) }]
      ∧ Ftml.extract_all text .err ≠ []) := by
  constructor
  · intro pairs hlast
    have hmap : (Ftml.extract_all text (.ok pairs)).getLast? =
        pairs.getLast?.map Ftml.convert_pair := by
      simp [Ftml.extract_all]
    constructor
    · rw [hmap, hlast]
      rfl
    · intro hempty
      rw [hempty] at hmap
      rw [hlast] at hmap
      cases hmap
  · exact ⟨rfl, by simp [Ftml.extract_all]⟩

/-- Witness for C8 at a concrete successful tokenization of "a": an
`Identifier` pair followed by the `EOI` pair. -/
theorem Ftml.extract_all_terminator_witness :
    (Ftml.extract_all ("a".toList)
        (.ok [{ token := Ftml.Token.identifier, slice := "a".toList, start := 0, stop := 1 },
              { token := Ftml.Token.inputEnd, slice := [], start := 1, stop := 1 }])).getLast? =
      some { token := Ftml.Token.inputEnd, slice := [],
             span := (("a".toList).length, ("a".toList).length) }
    ∧ Ftml.extract_all ("a".toList)
        (.ok [{ token := Ftml.Token.identifier, slice := "a".toList, start := 0, stop := 1 },
              { token := Ftml.Token.inputEnd, slice := [], start := 1, stop := 1 }]) ≠ [] :=
  (Ftml.extract_all_terminator ("a".toList)).1
    [{ token := Ftml.Token.identifier, slice := "a".toList, start := 0, stop := 1 },
     { token := Ftml.Token.inputEnd, slice := [], start := 1, stop := 1 }] (by decide)

/-- C9: `Parser::evaluate` applied to a `ParseCondition::TokenPair` condition
returns `false` for every parser state — in particular also when the current
token equals the pair's first token and the following token equals the second
token, because the evaluation closure ends in `Ok(false)` even on a full
match.  TokenPair close/abort conditions therefore can never fire. -/
theorem Ftml.evaluate_tokenPair_always_false
    (p : Ftml.Parser) (current next : Ftml.Token) :
    p.evaluate (.tokenPair current next) = false := by
  simp only [Ftml.Parser.evaluate, Ftml.Parser.evaluate_fn]
  by_cases h1 : p.current.token ≠ current
  · simp [h1]
  · simp only [h1, if_false, ite_false, reduceIte]
    rcases hstep : p.step with e | q
    · simp
    · simp only []
      by_cases h2 : q.current.token ≠ next <;> simp [h2]
